import Mathlib

/-! Verification of the retrospective sentiment-analysis pipeline (`src/main.py`)
against its natural-language specification.

The embedding models: cell values of the tabular data, the text sanitizer
`sanitize_text`, the sentiment classification (from the spec, since
`utils/sentiment_analyzer.py` is not among the provided sources),
the column analyzer `analyze_retrodata`, and the filter/sort steps of `main`.
-/

set_option maxRecDepth 4000

namespace Retro

/-- A cell of the in-memory table: a string, a number, or missing (NaN).
Scores are modelled with rationals. -/
inductive Cell where
  | str (s : String)
  | num (q : ℚ)
  | missing
deriving DecidableEq

/-- Python `isinstance(text, str)` on a cell. -/
def cellIsStr : Cell → Bool
  | Cell.str _ => true
  | _ => false

/-! Section TextSanitizer (`sanitize_text`, src/main.py lines 38-52).

Character classes follow Python `re` on the characters exercised here
(the ASCII range plus the bullet `•`): `\w` is alphanumeric or underscore,
`\s` is the whitespace characters. -/

/-- Python regex class `\s`. -/
def pyIsSpace (c : Char) : Bool :=
  c = ' ' || c = '\t' || c = '\n' || c = '\r' || c = '\x0b' || c = '\x0c'

/-- Python regex class `\w` (word character). -/
def pyIsWord (c : Char) : Bool :=
  c.isAlphanum || c = '_'

/-- Characters NOT replaced by the first substitution
`re.sub(r'[^\w\s.,!?]', ' ', text)`: word characters, whitespace,
and `. , ! ?`. -/
def keepChar (c : Char) : Bool :=
  pyIsWord c || pyIsSpace c || c = '.' || c = ',' || c = '!' || c = '?'

/-- Bullet characters of the second substitution `re.sub(r'[\•\-\*]', ' ', text)`. -/
def isBullet (c : Char) : Bool :=
  c = '•' || c = '-' || c = '*'

/-- First substitution: every non-kept character becomes a single space. -/
def step1 (l : List Char) : List Char :=
  l.map (fun c => if keepChar c then c else ' ')

/-- Second substitution: bullets become a single space. -/
def step2 (l : List Char) : List Char :=
  l.map (fun c => if isBullet c then ' ' else c)

/-- Third substitution `re.sub(r'\s+', ' ', text)`: each maximal run of
whitespace collapses to one space. -/
def collapseWS : List Char → List Char
  | [] => []
  | c :: rest =>
    if pyIsSpace c then
      match rest with
      | [] => [' ']
      | d :: _ => if pyIsSpace d then collapseWS rest else ' ' :: collapseWS rest
    else c :: collapseWS rest

/-- Python `str.strip()`: drop leading and trailing whitespace. -/
def pyStripList (l : List Char) : List Char :=
  ((l.dropWhile pyIsSpace).reverse.dropWhile pyIsSpace).reverse

/-- Model of `sanitize_text` (src/main.py lines 38-52): non-strings yield `""`;
strings go through the two character substitutions, whitespace collapsing,
and stripping. -/
def sanitize_text (v : Cell) : String :=
  match v with
  | Cell.str s => String.mk (pyStripList (collapseWS (step2 (step1 s.data))))
  | _ => ""

/-- No two consecutive whitespace characters. -/
def noDoubleWS (l : List Char) : Prop :=
  List.Chain' (fun a b => ¬(pyIsSpace a = true ∧ pyIsSpace b = true)) l

/-- The optional character (an end of a list) is absent or not whitespace. -/
def optNotSpace : Option Char → Bool
  | none => true
  | some c => !(pyIsSpace c)

/-- Neither end of the list is a whitespace character. -/
def trimmed (l : List Char) : Bool :=
  optNotSpace l.head? && optNotSpace l.getLast?

instance (l : List Char) : Decidable (noDoubleWS l) := by
  unfold noDoubleWS; infer_instance

example : sanitize_text (Cell.str "Great work!! 100% effort") = "Great work!! 100 effort" := by decide

example : sanitize_text (Cell.str "  a\n\n b\t• c- ") = "a b c" := by decide

example : sanitize_text (Cell.num 3) = "" := by rfl

/-! Lemmas about the sanitizer. -/

theorem collapseWS_cons_not_space (d : Char) (rest : List Char) (h : pyIsSpace d = false) :
    collapseWS (d :: rest) = d :: collapseWS rest := by
  cases rest <;> simp [collapseWS, h]

theorem noDoubleWS_collapseWS (l : List Char) : noDoubleWS (collapseWS l) := by
  unfold noDoubleWS
  induction l with
  | nil => simp [collapseWS]
  | cons c rest ih =>
    cases hc : pyIsSpace c with
    | false =>
      rw [collapseWS_cons_not_space c rest hc]
      exact List.chain'_cons'.mpr ⟨fun y _ => by simp [hc], ih⟩
    | true =>
      match rest with
      | [] => simp [collapseWS, hc]
      | d :: rest' =>
        cases hd : pyIsSpace d with
        | true => simpa [collapseWS, hc, hd] using ih
        | false =>
          rw [show collapseWS (c :: d :: rest') = ' ' :: collapseWS (d :: rest') by
            simp [collapseWS, hc, hd]]
          rw [collapseWS_cons_not_space d rest' hd] at ih ⊢
          exact List.chain'_cons.mpr ⟨by simp [hd], ih⟩

theorem mem_collapseWS {c : Char} :
    ∀ {l : List Char}, c ∈ collapseWS l → c = ' ' ∨ (c ∈ l ∧ pyIsSpace c = false) := by
  intro l
  induction l with
  | nil => simp [collapseWS]
  | cons x rest ih =>
    intro hmem
    cases hx : pyIsSpace x with
    | false =>
      rw [collapseWS_cons_not_space x rest hx] at hmem
      rcases List.mem_cons.mp hmem with rfl | h
      · exact Or.inr ⟨List.mem_cons_self _ _, hx⟩
      · rcases ih h with h' | ⟨h1, h2⟩
        · exact Or.inl h'
        · exact Or.inr ⟨List.mem_cons_of_mem _ h1, h2⟩
    | true =>
      match rest with
      | [] =>
        simp [collapseWS, hx] at hmem
        exact Or.inl hmem
      | d :: rest' =>
        cases hd : pyIsSpace d with
        | true =>
          rw [show collapseWS (x :: d :: rest') = collapseWS (d :: rest') by
            simp [collapseWS, hx, hd]] at hmem
          rcases ih hmem with h' | ⟨h1, h2⟩
          · exact Or.inl h'
          · exact Or.inr ⟨List.mem_cons_of_mem _ h1, h2⟩
        | false =>
          rw [show collapseWS (x :: d :: rest') = ' ' :: collapseWS (d :: rest') by
            simp [collapseWS, hx, hd]] at hmem
          rcases List.mem_cons.mp hmem with rfl | h
          · exact Or.inl rfl
          · rcases ih h with h' | ⟨h1, h2⟩
            · exact Or.inl h'
            · exact Or.inr ⟨List.mem_cons_of_mem _ h1, h2⟩

theorem head?_dropWhile_false (p : Char → Bool) :
    ∀ (l : List Char), ∀ c ∈ (l.dropWhile p).head?, p c = false := by
  intro l
  induction l with
  | nil => simp
  | cons x xs ih =>
    rw [List.dropWhile_cons]
    intro c hc
    cases hx : p x with
    | true => exact ih c (by simpa [hx] using hc)
    | false =>
      simp [hx] at hc
      subst hc
      exact hx

theorem chain'_pyStripList {R : Char → Char → Prop} {l : List Char}
    (h : List.Chain' R l) : List.Chain' R (pyStripList l) := by
  unfold pyStripList
  have h1 : List.Chain' R (l.dropWhile pyIsSpace) :=
    h.suffix (List.dropWhile_suffix _)
  have h2 : List.Chain' (flip R) (l.dropWhile pyIsSpace).reverse :=
    List.chain'_reverse.mpr h1
  have h3 : List.Chain' (flip R) ((l.dropWhile pyIsSpace).reverse.dropWhile pyIsSpace) :=
    h2.suffix (List.dropWhile_suffix _)
  exact List.chain'_reverse.mpr h3

theorem subset_pyStripList (l : List Char) : ∀ c ∈ pyStripList l, c ∈ l := by
  intro c hc
  unfold pyStripList at hc
  rw [List.mem_reverse] at hc
  have hc2 : c ∈ (l.dropWhile pyIsSpace).reverse :=
    (List.dropWhile_sublist _).subset hc
  rw [List.mem_reverse] at hc2
  exact (List.dropWhile_sublist _).subset hc2

theorem pyStripList_head (l : List Char) :
    ∀ c ∈ (pyStripList l).head?, pyIsSpace c = false := by
  intro c hc
  unfold pyStripList at hc
  rw [List.head?_reverse] at hc
  rw [Option.mem_def] at hc
  -- the head of the stripped list is the last of the inner dropWhile,
  -- which coincides with the head of the first dropWhile
  obtain ⟨w, hw⟩ : (l.dropWhile pyIsSpace).reverse.dropWhile pyIsSpace <:+
      (l.dropWhile pyIsSpace).reverse := List.dropWhile_suffix pyIsSpace
  have hlast : (l.dropWhile pyIsSpace).reverse.getLast? = some c := by
    rw [← hw, List.getLast?_append, hc]
    rfl
  rw [List.getLast?_reverse] at hlast
  exact head?_dropWhile_false pyIsSpace l c hlast

theorem pyStripList_getLast (l : List Char) :
    ∀ c ∈ (pyStripList l).getLast?, pyIsSpace c = false := by
  intro c hc
  unfold pyStripList at hc
  rw [List.getLast?_reverse] at hc
  exact head?_dropWhile_false pyIsSpace _ c hc

/-! Fixed points of the sanitizer passes. -/

theorem map_eq_self_of {f : Char → Char} :
    ∀ (l : List Char), (∀ c ∈ l, f c = c) → l.map f = l
  | [], _ => rfl
  | c :: t, h => by
    rw [List.map_cons, h c (List.mem_cons_self c t),
      map_eq_self_of t (fun x hx => h x (List.mem_cons_of_mem _ hx))]

theorem collapseWS_eq_self : ∀ (l : List Char), noDoubleWS l →
    (∀ c ∈ l, pyIsSpace c = true → c = ' ') → collapseWS l = l
  | [], _, _ => rfl
  | [c], _, hsp => by
    cases hc : pyIsSpace c with
    | false => rw [collapseWS_cons_not_space c [] hc]; rfl
    | true =>
      rw [hsp c (List.mem_cons_self _ _) hc]
      decide
  | c :: d :: rest', hch, hsp => by
    unfold noDoubleWS at hch
    cases hc : pyIsSpace c with
    | false =>
      rw [collapseWS_cons_not_space c (d :: rest') hc,
        collapseWS_eq_self (d :: rest') hch.tail
          (fun x hx => hsp x (List.mem_cons_of_mem _ hx))]
    | true =>
      have hc' : c = ' ' := hsp c (List.mem_cons_self _ _) hc
      have hd : pyIsSpace d = false := by
        cases hdd : pyIsSpace d with
        | false => rfl
        | true => exact absurd ⟨hc, hdd⟩ (List.chain'_cons.mp hch).1
      rw [show collapseWS (c :: d :: rest') = ' ' :: collapseWS (d :: rest') by
        simp [collapseWS, hc, hd]]
      rw [collapseWS_eq_self (d :: rest') hch.tail
        (fun x hx => hsp x (List.mem_cons_of_mem _ hx)), hc']

theorem pyStripList_eq_self {l : List Char}
    (h1 : ∀ c ∈ l.head?, pyIsSpace c = false)
    (h2 : ∀ c ∈ l.getLast?, pyIsSpace c = false) : pyStripList l = l := by
  have e1 : l.dropWhile pyIsSpace = l := by
    cases l with
    | nil => rfl
    | cons c t => rw [List.dropWhile_cons, if_neg (by simp [h1 c rfl])]
  unfold pyStripList
  rw [e1]
  have e2 : l.reverse.dropWhile pyIsSpace = l.reverse := by
    cases hrev : l.reverse with
    | nil => rfl
    | cons c t =>
      have hc : l.reverse.head? = some c := by rw [hrev]; rfl
      rw [List.head?_reverse] at hc
      rw [List.dropWhile_cons, if_neg (by simp [h2 c hc])]
  rw [e2, List.reverse_reverse]

theorem mem_step2_step1 {c : Char} {l : List Char} (h : c ∈ step2 (step1 l)) :
    keepChar c = true ∧ isBullet c = false := by
  unfold step1 step2 at h
  rw [List.map_map] at h
  obtain ⟨x, -, rfl⟩ := List.mem_map.mp h
  simp only [Function.comp]
  cases hk : keepChar x with
  | false => simp [hk]; decide
  | true =>
    cases hb : isBullet x with
    | true => simp [hk, hb]; decide
    | false => simp [hk, hb]

/-- The full sanitizing pipeline on a character list. -/
theorem sanitizeList_chain (l : List Char) :
    noDoubleWS (pyStripList (collapseWS (step2 (step1 l)))) :=
  chain'_pyStripList (noDoubleWS_collapseWS _)

theorem sanitizeList_mem {c : Char} {l : List Char}
    (h : c ∈ pyStripList (collapseWS (step2 (step1 l)))) :
    keepChar c = true ∧ isBullet c = false ∧ (pyIsSpace c = true → c = ' ') := by
  have h1 := subset_pyStripList _ c h
  rcases mem_collapseWS h1 with rfl | ⟨h2, h3⟩
  · exact ⟨by decide, by decide, fun _ => rfl⟩
  · obtain ⟨hk, hb⟩ := mem_step2_step1 h2
    exact ⟨hk, hb, fun hs => absurd hs (by simp [h3])⟩

theorem sanitizeList_idem (l : List Char) :
    pyStripList (collapseWS (step2 (step1 (pyStripList (collapseWS (step2 (step1 l))))))) =
      pyStripList (collapseWS (step2 (step1 l))) := by
  have e1 : step1 (pyStripList (collapseWS (step2 (step1 l)))) =
      pyStripList (collapseWS (step2 (step1 l))) :=
    map_eq_self_of _ (fun c hc => if_pos ((sanitizeList_mem hc).1))
  have e2 : step2 (pyStripList (collapseWS (step2 (step1 l)))) =
      pyStripList (collapseWS (step2 (step1 l))) :=
    map_eq_self_of _ (fun c hc => by
      have hb := (sanitizeList_mem hc).2.1
      simp [hb])
  have e3 : collapseWS (pyStripList (collapseWS (step2 (step1 l)))) =
      pyStripList (collapseWS (step2 (step1 l))) :=
    collapseWS_eq_self _ (sanitizeList_chain l) (fun c hc => (sanitizeList_mem hc).2.2)
  have e4 : pyStripList (pyStripList (collapseWS (step2 (step1 l)))) =
      pyStripList (collapseWS (step2 (step1 l))) :=
    pyStripList_eq_self (pyStripList_head _) (pyStripList_getLast _)
  rw [e1, e2, e3, e4]

theorem optNotSpace_of (o : Option Char) (h : ∀ c ∈ o, pyIsSpace c = false) :
    optNotSpace o = true := by
  cases o with
  | none => rfl
  | some c => simp [optNotSpace, h c rfl]

theorem trimmed_pyStripList (l : List Char) : trimmed (pyStripList l) = true := by
  unfold trimmed
  rw [optNotSpace_of _ (pyStripList_head l), optNotSpace_of _ (pyStripList_getLast l)]
  rfl

/-! Claims C4, C5 and C10. -/

/-- C4: for every input cell, `sanitize_text` is a total function (the Python
code raises on no input), its result contains no run of two or more
consecutive whitespace characters and no leading or trailing whitespace, and
every non-string input (numbers, missing/NaN) yields the empty string. -/
theorem sanitize_text_normalized (v : Cell) :
    noDoubleWS (sanitize_text v).data ∧
    trimmed (sanitize_text v).data = true ∧
    (cellIsStr v = false → sanitize_text v = "") := by
  cases v with
  | str s => exact ⟨sanitizeList_chain _, trimmed_pyStripList _, fun h => Bool.noConfusion h⟩
  | num q => exact ⟨List.chain'_nil, rfl, fun _ => rfl⟩
  | missing => exact ⟨List.chain'_nil, rfl, fun _ => rfl⟩

/-- Witness for C4 at concrete inputs. -/
theorem sanitize_text_normalized_app :
    noDoubleWS (sanitize_text (Cell.str " a \n\n b• ")).data ∧
    trimmed (sanitize_text (Cell.str " a \n\n b• ")).data = true ∧
    sanitize_text (Cell.num 3) = "" :=
  ⟨(sanitize_text_normalized (Cell.str " a \n\n b• ")).1,
    (sanitize_text_normalized (Cell.str " a \n\n b• ")).2.1,
    (sanitize_text_normalized (Cell.num 3)).2.2 rfl⟩

/-- C5: sanitization is idempotent: re-sanitizing a sanitized value changes
nothing. -/
theorem sanitize_text_idempotent (v : Cell) :
    sanitize_text (Cell.str (sanitize_text v)) = sanitize_text v := by
  cases v with
  | str s => exact congrArg String.mk (sanitizeList_idem s.data)
  | num q =>
    show sanitize_text (Cell.str "") = ""
    decide
  | missing =>
    show sanitize_text (Cell.str "") = ""
    decide

/-- C10 (counterexample): on `"Great work!! 100% effort"` the sanitizer does
NOT return `"Great work 100 effort"`: the exclamation marks are in the kept
character class `[^\w\s.,!?]` and survive. -/
theorem sanitize_great_work_ne :
    sanitize_text (Cell.str "Great work!! 100% effort") ≠ "Great work 100 effort" := by
  decide

/-- C10 (amended): on `"Great work!! 100% effort"` the sanitizer returns
`"Great work!! 100 effort"`: the percent sign is replaced by a space and the
resulting double space collapses, while `!` is kept by the character-class
rule. -/
theorem sanitize_great_work :
    sanitize_text (Cell.str "Great work!! 100% effort") = "Great work!! 100 effort" := by
  decide

/-! Section SentimentScorer.

The scorer class lives in `utils/sentiment_analyzer.py`, which is not among
the provided sources; it is modelled from the spec (§4.2, §7). -/

/-- The five ordered sentiment buckets. -/
inductive Category where
  | very_negative
  | negative
  | neutral
  | positive
  | very_positive
deriving DecidableEq

/-- Rank of a category in the positivity order. -/
def catRank : Category → Nat
  | Category.very_negative => 0
  | Category.negative => 1
  | Category.neutral => 2
  | Category.positive => 3
  | Category.very_positive => 4

/-- Label strings of the categories, as shown in the filter options
(src/main.py line 105). -/
def categoryLabel : Category → String
  | Category.very_negative => "very_negative"
  | Category.negative => "negative"
  | Category.neutral => "neutral"
  | Category.positive => "positive"
  | Category.very_positive => "very_positive"

/-- Modelled from the spec: the classification thresholds of §4.2 of the
spec, lower bound of each bucket per the table (the classifier itself is in
`utils/sentiment_analyzer.py`, not among the provided sources). -/
def classify (c : ℚ) : Category :=
  if c ≤ mkRat (-3) 5 then Category.very_negative
  else if c ≤ mkRat (-1) 5 then Category.negative
  else if c < mkRat 1 5 then Category.neutral
  else if c < mkRat 3 5 then Category.positive
  else Category.very_positive

/-- Modelled from the spec: the display color is a pure function of the
category (suggested colors of §4.2). -/
def colorOf : Category → String
  | Category.very_negative => "strong red"
  | Category.negative => "light red/orange"
  | Category.neutral => "gray/yellow"
  | Category.positive => "light green"
  | Category.very_positive => "strong green"

/-- The structured sentiment result of a cell. -/
structure SentimentResult where
  compound : ℚ
  category : Category
  color : String
deriving DecidableEq

/-- Modelled from the spec: `SentimentAnalyzer.analyze_text` delegates to an
external lexicon primitive (here `prim`, fallible as `Option`) and owns the
category/color mapping; on a scoring failure it fails closed with the
neutral result (compound 0.0, category neutral) per §4.2/§7. -/
def analyze_text (prim : String → Option ℚ) (text : String) : SentimentResult :=
  match prim text with
  | some c => { compound := c, category := classify c, color := colorOf (classify c) }
  | none => { compound := 0, category := Category.neutral, color := colorOf Category.neutral }

/-! Section Tables. -/

/-- An in-memory table: named columns and rows of cells (the pandas
DataFrame abstraction). -/
structure Table where
  header : List String
  rows : List (List Cell)
deriving DecidableEq

/-- Every row has exactly one cell per column. -/
def Rect (t : Table) : Prop := ∀ r ∈ t.rows, r.length = t.header.length

instance (t : Table) : Decidable (Rect t) := by
  unfold Rect
  infer_instance

/-- Position of a column name in a header (first occurrence). -/
def idxOf? (c : String) : List String → Option Nat
  | [] => none
  | x :: xs => if x = c then some 0 else (idxOf? c xs).map (· + 1)

/-- The cell of a row at a column position. -/
def getCell (r : List Cell) (i : Nat) : Cell := r.getD i Cell.missing

/-- Column access `df[c]` as an optional list of cells. -/
def getCol (t : Table) (c : String) : Option (List Cell) :=
  (idxOf? c t.header).map (fun i => t.rows.map (fun r => getCell r i))

/-- Column values of a column known to be present. -/
def getColD (t : Table) (c : String) : List Cell := (getCol t c).getD []

/-- In-place update of an existing column (`df[c] = df[c].apply(f)`);
no effect when the column is absent. -/
def mapCol (t : Table) (c : String) (f : Cell → Cell) : Table :=
  match idxOf? c t.header with
  | none => t
  | some i => ⟨t.header, t.rows.map (fun r => r.set i (f (getCell r i)))⟩

/-- Column assignment `df[c] = vals`: overwrite the column when present,
append it at the end otherwise (pandas semantics). -/
def setCol (t : Table) (c : String) (vals : List Cell) : Table :=
  match idxOf? c t.header with
  | some i => ⟨t.header, (t.rows.zip vals).map (fun rv => rv.1.set i rv.2)⟩
  | none => ⟨t.header ++ [c], (t.rows.zip vals).map (fun rv => rv.1 ++ [rv.2])⟩

/-- Python `str(x)` as applied to the cells of a sanitized column (which are
always strings; the other branches are unreachable in `analyze_retrodata`). -/
def pyStr : Cell → String
  | Cell.str s => s
  | Cell.num q => toString q
  | Cell.missing => "nan"

/-! Section ColumnAnalyzer (`analyze_retrodata`, src/main.py lines 54-82). -/

/-- The configured candidate text columns (src/main.py lines 58-64). -/
def sentiment_columns : List String :=
  ["What Did Not Go Well?", "What Went Well?", "Reason for Churn",
   "Improvement opportunity", "Reason for reported success rate"]

/-- The three derived column names appended for an analyzed column. -/
def derivedNames (c : String) : List String :=
  [c ++ "_Sentiment_Score", c ++ "_Sentiment_Category", c ++ "_Color"]

/-- The in-place sanitization `df[col] = df[col].apply(sanitize_text)`. -/
def sanitizedTable (df : Table) (col : String) : Table :=
  mapCol df col (fun cell => Cell.str (sanitize_text cell))

/-- The per-row sentiment results of a column
(`analyzer.analyze_text(str(text)) for text in df[col]`). -/
def colSentiments (f : String → SentimentResult) (df1 : Table) (col : String) :
    List SentimentResult :=
  (getColD df1 col).map (fun cell => f (pyStr cell))

/-- One iteration of the loop in `analyze_retrodata` for a configured
column: skip it if absent; otherwise sanitize the column in place, score
every sanitized cell once, and assign the three derived columns. -/
def analyzeCol (f : String → SentimentResult) (df : Table) (col : String) : Table :=
  if (idxOf? col df.header).isSome then
    setCol
      (setCol
        (setCol (sanitizedTable df col) (col ++ "_Sentiment_Score")
          ((colSentiments f (sanitizedTable df col) col).map (fun s => Cell.num s.compound)))
        (col ++ "_Sentiment_Category")
        ((colSentiments f (sanitizedTable df col) col).map
          (fun s => Cell.str (categoryLabel s.category))))
      (col ++ "_Color")
      ((colSentiments f (sanitizedTable df col) col).map (fun s => Cell.str s.color))
  else df

/-- The loop of `analyze_retrodata` over the configured columns. -/
def analyzeCols (f : String → SentimentResult) : List String → Table → Table
  | [], df => df
  | col :: rest, df => analyzeCols f rest (analyzeCol f df col)

/-- Model of `analyze_retrodata` (src/main.py lines 54-82): one analyzer per call,
applied over the configured columns. -/
def analyze_retrodata (prim : String → Option ℚ) (df : Table) : Table :=
  analyzeCols (analyze_text prim) sentiment_columns df

/-- A deterministic stand-in for the external scoring primitive, used in
concrete witnesses. -/
def prim0 : String → Option ℚ := fun _ => some 0

example :
    analyze_retrodata prim0 (Table.mk ["id", "Reason for Churn"] [[Cell.str "a", Cell.str "x  y!"]]) =
      Table.mk
        ["id", "Reason for Churn", "Reason for Churn_Sentiment_Score",
          "Reason for Churn_Sentiment_Category", "Reason for Churn_Color"]
        [[Cell.str "a", Cell.str "x y!", Cell.num 0, Cell.str "neutral", Cell.str "gray/yellow"]] := by
  decide

/-! Claim C6: classification thresholds and monotonicity. -/

/-- C6: classification is monotonically non-decreasing in category rank as
the compound score increases, and the bucket boundaries are exactly the
table of §4.2 (lower bounds inclusive as tabulated: `-3/5` is still
`very_negative`, `1/5` is already `positive`, and everything strictly
between `-1/5` and `1/5` is `neutral`). -/
theorem classify_monotone_boundaries :
    (∀ a b : ℚ, a ≤ b → catRank (classify a) ≤ catRank (classify b)) ∧
    (∀ c : ℚ,
      (classify c = Category.very_negative ↔ c ≤ mkRat (-3) 5) ∧
      (classify c = Category.negative ↔ (mkRat (-3) 5 < c ∧ c ≤ mkRat (-1) 5)) ∧
      (classify c = Category.neutral ↔ (mkRat (-1) 5 < c ∧ c < mkRat 1 5)) ∧
      (classify c = Category.positive ↔ (mkRat 1 5 ≤ c ∧ c < mkRat 3 5)) ∧
      (classify c = Category.very_positive ↔ mkRat 3 5 ≤ c)) := by
  have k1 : mkRat (-3) 5 < mkRat (-1) 5 := by decide
  have k2 : mkRat (-1) 5 < mkRat 1 5 := by decide
  have k3 : mkRat 1 5 < mkRat 3 5 := by decide
  constructor
  · intro a b hab
    unfold classify
    split_ifs <;> first | decide | (exfalso; linarith)
  · intro c
    unfold classify
    split_ifs with h1 h2 h3 h4
    · exact ⟨iff_of_true rfl h1,
        iff_of_false (by decide) (by rintro ⟨hx, hy⟩; linarith),
        iff_of_false (by decide) (by rintro ⟨hx, hy⟩; linarith),
        iff_of_false (by decide) (by rintro ⟨hx, hy⟩; linarith),
        iff_of_false (by decide) (by intro hx; linarith)⟩
    · exact ⟨iff_of_false (by decide) h1,
        iff_of_true rfl ⟨not_le.mp h1, h2⟩,
        iff_of_false (by decide) (by rintro ⟨hx, hy⟩; linarith),
        iff_of_false (by decide) (by rintro ⟨hx, hy⟩; linarith),
        iff_of_false (by decide) (by intro hx; linarith)⟩
    · exact ⟨iff_of_false (by decide) h1,
        iff_of_false (by decide) (by rintro ⟨hx, hy⟩; exact h2 hy),
        iff_of_true rfl ⟨not_le.mp h2, h3⟩,
        iff_of_false (by decide) (by rintro ⟨hx, hy⟩; linarith),
        iff_of_false (by decide) (by intro hx; linarith)⟩
    · exact ⟨iff_of_false (by decide) h1,
        iff_of_false (by decide) (by rintro ⟨hx, hy⟩; exact h2 hy),
        iff_of_false (by decide) (by rintro ⟨hx, hy⟩; exact h3 hy),
        iff_of_true rfl ⟨not_lt.mp h3, h4⟩,
        iff_of_false (by decide) (by intro hx; linarith)⟩
    · exact ⟨iff_of_false (by decide) h1,
        iff_of_false (by decide) (by rintro ⟨hx, hy⟩; exact h2 hy),
        iff_of_false (by decide) (by rintro ⟨hx, hy⟩; exact h3 hy),
        iff_of_false (by decide) (by rintro ⟨hx, hy⟩; exact h4 hy),
        iff_of_true rfl (not_lt.mp h4)⟩

/-- Witness for C6 at concrete compound scores. -/
theorem classify_monotone_boundaries_app :
    catRank (classify (mkRat (-3) 5)) ≤ catRank (classify (mkRat 1 5)) ∧
    (classify (mkRat (-3) 5) = Category.very_negative ↔ mkRat (-3) 5 ≤ mkRat (-3) 5) :=
  ⟨classify_monotone_boundaries.1 (mkRat (-3) 5) (mkRat 1 5) (by decide),
    (classify_monotone_boundaries.2 (mkRat (-3) 5)).1⟩

/-! Claim C7: scoring failure recovered per cell. -/

/-- C7: when the external scoring primitive fails on a cell, the analyzer
substitutes the neutral result (compound 0.0, category neutral) for that
cell, and the whole-table analysis is exactly what it would be had every
failing cell scored 0.0 — no failure aborts the batch. -/
theorem scoring_failure_recovered (prim : String → Option ℚ) :
    (∀ text, prim text = none →
      analyze_text prim text =
        { compound := 0, category := Category.neutral, color := colorOf Category.neutral }) ∧
    (∀ df : Table,
      analyze_retrodata prim df = analyze_retrodata (fun s => some ((prim s).getD 0)) df) := by
  have hfun : analyze_text prim = analyze_text (fun s => some ((prim s).getD 0)) := by
    funext t
    unfold analyze_text
    cases h : prim t with
    | none => simp [h]; decide
    | some q => simp [h]
  constructor
  · intro text h
    unfold analyze_text
    rw [h]
  · intro df
    unfold analyze_retrodata
    rw [hfun]

/-- Witness for C7: a primitive failing everywhere yields the neutral result. -/
theorem scoring_failure_recovered_app :
    analyze_text (fun _ => none) "bad cell" =
      { compound := 0, category := Category.neutral, color := colorOf Category.neutral } :=
  (scoring_failure_recovered (fun _ => none)).1 "bad cell" rfl

/-! Lemmas about column indexing. -/

theorem idxOf?_eq_none_iff {c : String} {l : List String} :
    idxOf? c l = none ↔ c ∉ l := by
  induction l with
  | nil => simp [idxOf?]
  | cons x xs ih =>
    unfold idxOf?
    by_cases hx : x = c
    · subst hx
      simp
    · rw [if_neg hx, Option.map_eq_none', ih]
      constructor
      · intro h hmem
        rcases List.mem_cons.mp hmem with rfl | hm
        · exact hx rfl
        · exact h hm
      · exact fun h hm => h (List.mem_cons_of_mem _ hm)

theorem idxOf?_isSome_iff {c : String} {l : List String} :
    (idxOf? c l).isSome = true ↔ c ∈ l := by
  rw [Option.isSome_iff_ne_none, ne_eq, idxOf?_eq_none_iff]
  exact not_not

theorem idxOf?_getD {c : String} {l : List String} :
    ∀ {i : Nat}, idxOf? c l = some i → l.getD i "" = c := by
  induction l with
  | nil => intro i h; simp [idxOf?] at h
  | cons x xs ih =>
    intro i h
    unfold idxOf? at h
    by_cases hx : x = c
    · rw [if_pos hx] at h
      cases h
      simpa using hx
    · rw [if_neg hx, Option.map_eq_some'] at h
      obtain ⟨j, hj, rfl⟩ := h
      simpa using ih hj

theorem idxOf?_lt_length {c : String} {l : List String} :
    ∀ {i : Nat}, idxOf? c l = some i → i < l.length := by
  induction l with
  | nil => intro i h; simp [idxOf?] at h
  | cons x xs ih =>
    intro i h
    unfold idxOf? at h
    by_cases hx : x = c
    · rw [if_pos hx] at h
      cases h
      simp
    · rw [if_neg hx, Option.map_eq_some'] at h
      obtain ⟨j, hj, rfl⟩ := h
      simpa using ih hj

theorem idxOf?_append_left {c : String} {l1 : List String} (l2 : List String)
    (h : c ∈ l1) : idxOf? c (l1 ++ l2) = idxOf? c l1 := by
  induction l1 with
  | nil => cases h
  | cons x xs ih =>
    simp only [List.cons_append, idxOf?]
    by_cases hx : x = c
    · simp [hx]
    · have hm : c ∈ xs := by
        rcases List.mem_cons.mp h with rfl | hm
        · exact absurd rfl hx
        · exact hm
      simp [hx, ih hm]

theorem idxOf?_append_right {c : String} {l1 : List String} (l2 : List String)
    (h : c ∉ l1) : idxOf? c (l1 ++ l2) = (idxOf? c l2).map (· + l1.length) := by
  induction l1 with
  | nil => cases hi : idxOf? c l2 <;> simp [hi]
  | cons x xs ih =>
    have hx : ¬(x = c) := fun e => h (List.mem_cons.mpr (Or.inl e.symm))
    have hxs : c ∉ xs := fun hm => h (List.mem_cons_of_mem _ hm)
    simp only [List.cons_append, idxOf?, List.append_eq]
    rw [if_neg hx, ih hxs]
    cases idxOf? c l2 <;> simp [Nat.add_assoc]

/-! Structural lemmas about table operations. -/

theorem mapCol_header (t : Table) (c : String) (f : Cell → Cell) :
    (mapCol t c f).header = t.header := by
  unfold mapCol
  cases idxOf? c t.header <;> rfl

theorem mapCol_length (t : Table) (c : String) (f : Cell → Cell) :
    (mapCol t c f).rows.length = t.rows.length := by
  unfold mapCol
  cases idxOf? c t.header <;> simp

theorem mapCol_rect {t : Table} (c : String) (f : Cell → Cell) (h : Rect t) :
    Rect (mapCol t c f) := by
  unfold mapCol
  cases idxOf? c t.header with
  | none => exact h
  | some i =>
    intro r hr
    simp only [List.mem_map] at hr
    obtain ⟨r0, hr0, rfl⟩ := hr
    simpa using h r0 hr0

theorem setCol_length {t : Table} {vals : List Cell} (c : String)
    (h : vals.length = t.rows.length) :
    (setCol t c vals).rows.length = t.rows.length := by
  unfold setCol
  cases idxOf? c t.header <;> simp [h]

theorem setCol_header_absent {t : Table} {c : String} (vals : List Cell)
    (h : c ∉ t.header) : (setCol t c vals).header = t.header ++ [c] := by
  unfold setCol
  rw [idxOf?_eq_none_iff.mpr h]

theorem setCol_rect {t : Table} {vals : List Cell} (c : String) (hrect : Rect t)
    (_hlen : vals.length = t.rows.length) : Rect (setCol t c vals) := by
  unfold setCol
  cases hidx : idxOf? c t.header with
  | some i =>
    intro r hr
    simp only [List.mem_map] at hr
    obtain ⟨⟨r0, v⟩, hmem, rfl⟩ := hr
    have := hrect r0 (List.of_mem_zip hmem).1
    simpa using this
  | none =>
    intro r hr
    simp only [List.mem_map] at hr
    obtain ⟨⟨r0, v⟩, hmem, rfl⟩ := hr
    have := hrect r0 (List.of_mem_zip hmem).1
    simpa using this

theorem getCell_set_ne {r : List Cell} {i j : Nat} (h : i ≠ j) (v : Cell) :
    getCell (r.set i v) j = getCell r j := by
  unfold getCell
  rw [List.getD_eq_getElem?_getD, List.getD_eq_getElem?_getD, List.getElem?_set_ne h]

theorem getCell_append_lt {r : List Cell} {i : Nat} (h : i < r.length) (v : Cell) :
    getCell (r ++ [v]) i = getCell r i := by
  unfold getCell
  rw [List.getD_eq_getElem?_getD, List.getD_eq_getElem?_getD, List.getElem?_append_left h]

theorem map_set_zip_getCell {j i : Nat} (hij : j ≠ i) :
    ∀ (rows : List (List Cell)) (vals : List Cell), vals.length = rows.length →
      ((rows.zip vals).map (fun rv => rv.1.set j rv.2)).map (fun r => getCell r i) =
        rows.map (fun r => getCell r i)
  | [], _, _ => by simp
  | r :: rs, [], h => by simp at h
  | r :: rs, v :: vs, h => by
    simp only [List.zip_cons_cons, List.map_cons]
    rw [getCell_set_ne hij v, map_set_zip_getCell hij rs vs (by simpa using h)]

theorem map_append_zip_getCell {i : Nat} :
    ∀ (rows : List (List Cell)) (vals : List Cell), vals.length = rows.length →
      (∀ r ∈ rows, i < r.length) →
      ((rows.zip vals).map (fun rv => rv.1 ++ [rv.2])).map (fun r => getCell r i) =
        rows.map (fun r => getCell r i)
  | [], _, _, _ => by simp
  | r :: rs, [], h, _ => by simp at h
  | r :: rs, v :: vs, h, hlt => by
    simp only [List.zip_cons_cons, List.map_cons]
    rw [getCell_append_lt (hlt r (List.mem_cons_self _ _)) v,
      map_append_zip_getCell rs vs (by simpa using h)
        (fun r hr => hlt r (List.mem_cons_of_mem _ hr))]

theorem getCell_set_self {r : List Cell} {i : Nat} (h : i < r.length) (v : Cell) :
    getCell (r.set i v) i = v := by
  unfold getCell
  rw [List.getD_eq_getElem?_getD, List.getElem?_set_self h]
  rfl

theorem getCol_mapCol_self {t : Table} {c : String} (f : Cell → Cell)
    (hrect : Rect t) (hc : c ∈ t.header) :
    getCol (mapCol t c f) c = some ((getColD t c).map f) := by
  obtain ⟨i, hi⟩ := Option.isSome_iff_exists.mp (idxOf?_isSome_iff.mpr hc)
  unfold mapCol
  rw [hi]
  unfold getCol getColD getCol
  rw [hi]
  simp only [Option.map_some', Option.getD_some, List.map_map]
  congr 1
  apply List.map_congr_left
  intro r hr
  simp only [Function.comp_apply]
  exact getCell_set_self (by rw [hrect r hr]; exact idxOf?_lt_length hi) _

theorem getCol_mapCol_ne {t : Table} {c c' : String} (f : Cell → Cell) (hne : c ≠ c') :
    getCol (mapCol t c' f) c = getCol t c := by
  unfold mapCol
  cases hidx' : idxOf? c' t.header with
  | none => rfl
  | some j =>
    unfold getCol
    cases hidx : idxOf? c t.header with
    | none => simp [hidx]
    | some i =>
      have hij : j ≠ i := fun e =>
        hne (by rw [← idxOf?_getD hidx, ← idxOf?_getD hidx', e])
      simp only [hidx, Option.map_some']
      congr 1
      rw [List.map_map]
      apply List.map_congr_left
      intro r _
      exact getCell_set_ne hij _

theorem getCol_setCol_ne {t : Table} {c c' : String} {vals : List Cell}
    (hne : c ≠ c') (hlen : vals.length = t.rows.length) (hrect : Rect t)
    (hc : c ∈ t.header) :
    getCol (setCol t c' vals) c = getCol t c := by
  unfold setCol
  cases hidx' : idxOf? c' t.header with
  | some j =>
    unfold getCol
    cases hidx : idxOf? c t.header with
    | none => simp [hidx]
    | some i =>
      have hij : j ≠ i := fun e =>
        hne (by rw [← idxOf?_getD hidx, ← idxOf?_getD hidx', e])
      simp only [hidx, Option.map_some']
      congr 1
      exact map_set_zip_getCell hij t.rows vals hlen
  | none =>
    unfold getCol
    rw [show (Table.mk (t.header ++ [c'])
      ((t.rows.zip vals).map (fun rv => rv.1 ++ [rv.2]))).header = t.header ++ [c'] from rfl]
    rw [idxOf?_append_left [c'] hc]
    cases hidx : idxOf? c t.header with
    | none => rfl
    | some i =>
      simp only [Option.map_some']
      congr 1
      exact map_append_zip_getCell t.rows vals hlen
        (fun r hr => by rw [hrect r hr]; exact idxOf?_lt_length hidx)

theorem getColD_length {t : Table} {c : String} (h : c ∈ t.header) :
    (getColD t c).length = t.rows.length := by
  unfold getColD getCol
  obtain ⟨i, hi⟩ := Option.isSome_iff_exists.mp (idxOf?_isSome_iff.mpr h)
  simp [hi]

/-! Lemmas about the column analyzer. -/

theorem append_length_ne {a s t : String} (h : s.length ≠ t.length) :
    a ++ s ≠ a ++ t := by
  intro e
  apply h
  have he := congrArg String.length e
  rw [String.length_append, String.length_append] at he
  omega

theorem ne_append_of_length_pos {a s : String} (h : s.length ≠ 0) : a ≠ a ++ s := by
  intro e
  apply h
  have he := congrArg String.length e
  rw [String.length_append] at he
  omega

theorem analyzeCol_absent {f : String → SentimentResult} {df : Table} {col : String}
    (h : col ∉ df.header) : analyzeCol f df col = df := by
  unfold analyzeCol
  rw [if_neg (by simp [idxOf?_eq_none_iff.mpr h])]

theorem analyzeCol_present {f : String → SentimentResult} {df : Table} {col : String}
    (hrect : Rect df) (hcol : col ∈ df.header)
    (hfresh : ∀ d ∈ derivedNames col, d ∉ df.header) :
    (analyzeCol f df col).header = df.header ++ derivedNames col ∧
    (analyzeCol f df col).rows.length = df.rows.length ∧
    Rect (analyzeCol f df col) ∧
    (∀ c ∈ df.header, c ≠ col → getCol (analyzeCol f df col) c = getCol df c) ∧
    getCol (analyzeCol f df col) col =
      some ((getColD df col).map (fun cell => Cell.str (sanitize_text cell))) := by
  have hd1 : col ++ "_Sentiment_Score" ∉ df.header := hfresh _ (by simp [derivedNames])
  have hd2 : col ++ "_Sentiment_Category" ∉ df.header := hfresh _ (by simp [derivedNames])
  have hd3 : col ++ "_Color" ∉ df.header := hfresh _ (by simp [derivedNames])
  have hne21 : col ++ "_Sentiment_Category" ≠ col ++ "_Sentiment_Score" :=
    append_length_ne (by decide)
  have hne31 : col ++ "_Color" ≠ col ++ "_Sentiment_Score" := append_length_ne (by decide)
  have hne32 : col ++ "_Color" ≠ col ++ "_Sentiment_Category" := append_length_ne (by decide)
  have h1h : (sanitizedTable df col).header = df.header := mapCol_header _ _ _
  have h1l : (sanitizedTable df col).rows.length = df.rows.length := mapCol_length _ _ _
  have h1r : Rect (sanitizedTable df col) := mapCol_rect _ _ hrect
  have hScol : col ∈ (sanitizedTable df col).header := h1h ▸ hcol
  have hSlen : (colSentiments f (sanitizedTable df col) col).length = df.rows.length := by
    unfold colSentiments
    rw [List.length_map, getColD_length hScol, h1l]
  set t1 := sanitizedTable df col with ht1
  set S := colSentiments f t1 col with hS
  set t2 := setCol t1 (col ++ "_Sentiment_Score") (S.map (fun s => Cell.num s.compound))
    with ht2
  have h2h : t2.header = df.header ++ [col ++ "_Sentiment_Score"] := by
    rw [ht2, setCol_header_absent _ (h1h ▸ hd1), h1h]
  have h2l : t2.rows.length = df.rows.length := by
    rw [ht2, setCol_length _ (by simpa [hSlen] using h1l.symm), h1l]
  have h2r : Rect t2 := setCol_rect _ h1r (by rw [List.length_map, hSlen, h1l])
  set t3 := setCol t2 (col ++ "_Sentiment_Category")
    (S.map (fun s => Cell.str (categoryLabel s.category))) with ht3
  have hd2' : col ++ "_Sentiment_Category" ∉ t2.header := by
    rw [h2h]
    simp only [List.mem_append, List.mem_singleton]
    rintro (hm | hm)
    · exact hd2 hm
    · exact hne21 hm
  have h3h : t3.header = (df.header ++ [col ++ "_Sentiment_Score"]) ++
      [col ++ "_Sentiment_Category"] := by
    rw [ht3, setCol_header_absent _ hd2', h2h]
  have h3l : t3.rows.length = df.rows.length := by
    rw [ht3, setCol_length _ (by rw [List.length_map, hSlen, h2l]), h2l]
  have h3r : Rect t3 := setCol_rect _ h2r (by rw [List.length_map, hSlen, h2l])
  set t4 := setCol t3 (col ++ "_Color") (S.map (fun s => Cell.str s.color)) with ht4
  have hd3' : col ++ "_Color" ∉ t3.header := by
    rw [h3h]
    simp only [List.mem_append, List.mem_singleton]
    rintro ((hm | hm) | hm)
    · exact hd3 hm
    · exact hne31 hm
    · exact hne32 hm
  have h4h : t4.header = df.header ++ derivedNames col := by
    rw [ht4, setCol_header_absent _ hd3', h3h]
    simp [derivedNames]
  have h4l : t4.rows.length = df.rows.length := by
    rw [ht4, setCol_length _ (by rw [List.length_map, hSlen, h3l]), h3l]
  have h4r : Rect t4 := setCol_rect _ h3r (by rw [List.length_map, hSlen, h3l])
  have hdef : analyzeCol f df col = t4 := by
    unfold analyzeCol
    rw [if_pos (idxOf?_isSome_iff.mpr hcol)]
  refine ⟨hdef ▸ h4h, hdef ▸ h4l, hdef ▸ h4r, ?_, ?_⟩
  · intro c hc hne
    have hc1 : c ∈ t1.header := h1h ▸ hc
    have hc2 : c ∈ t2.header := by
      rw [h2h]
      exact List.mem_append.mpr (Or.inl hc)
    have hc3 : c ∈ t3.header := by
      rw [h3h]
      exact List.mem_append.mpr (Or.inl (List.mem_append.mpr (Or.inl hc)))
    have e4 : getCol t4 c = getCol t3 c :=
      getCol_setCol_ne (fun e => hd3 (e ▸ hc)) (by rw [List.length_map, hSlen, h3l]) h3r hc3
    have e3 : getCol t3 c = getCol t2 c :=
      getCol_setCol_ne (fun e => hd2 (e ▸ hc)) (by rw [List.length_map, hSlen, h2l]) h2r hc2
    have e2 : getCol t2 c = getCol t1 c :=
      getCol_setCol_ne (fun e => hd1 (e ▸ hc)) (by rw [List.length_map, hSlen, h1l]) h1r hc1
    have e1 : getCol t1 c = getCol df c := getCol_mapCol_ne _ hne
    rw [hdef, e4, e3, e2, e1]
  · have hc2 : col ∈ t2.header := by
      rw [h2h]
      exact List.mem_append.mpr (Or.inl hcol)
    have hc3 : col ∈ t3.header := by
      rw [h3h]
      exact List.mem_append.mpr (Or.inl (List.mem_append.mpr (Or.inl hcol)))
    have e4 : getCol t4 col = getCol t3 col :=
      getCol_setCol_ne (ne_append_of_length_pos (by decide))
        (by rw [List.length_map, hSlen, h3l]) h3r hc3
    have e3 : getCol t3 col = getCol t2 col :=
      getCol_setCol_ne (ne_append_of_length_pos (by decide))
        (by rw [List.length_map, hSlen, h2l]) h2r hc2
    have e2 : getCol t2 col = getCol t1 col :=
      getCol_setCol_ne (ne_append_of_length_pos (by decide))
        (by rw [List.length_map, hSlen, h1l]) h1r hScol
    have e1 : getCol t1 col = some ((getColD df col).map (fun cell =>
        Cell.str (sanitize_text cell))) := getCol_mapCol_self _ hrect hcol
    rw [hdef, e4, e3, e2, e1]

/-- Shape of the whole analysis loop: rows are preserved in number, the
header is the input header followed by the three derived names of each
present configured column (in configuration order), and every
non-configured column is untouched. -/
theorem analyzeCols_props (f : String → SentimentResult) :
    ∀ (cols : List String) (df : Table),
      Rect df →
      (∀ c ∈ cols, ∀ d ∈ derivedNames c, d ∉ df.header) →
      (∀ c ∈ cols, ∀ c' ∈ cols, ∀ d ∈ derivedNames c', c ≠ d) →
      (∀ c ∈ cols, ∀ c' ∈ cols, c ≠ c' →
        ∀ d ∈ derivedNames c, ∀ d' ∈ derivedNames c', d ≠ d') →
      cols.Nodup →
      Rect (analyzeCols f cols df) ∧
      (analyzeCols f cols df).header =
        df.header ++
          (cols.filter (fun c => (idxOf? c df.header).isSome)).flatMap derivedNames ∧
      (analyzeCols f cols df).rows.length = df.rows.length ∧
      (∀ c ∈ df.header, c ∉ cols → getCol (analyzeCols f cols df) c = getCol df c) ∧
      (∀ c ∈ cols, c ∈ df.header → getCol (analyzeCols f cols df) c =
        some ((getColD df c).map (fun cell => Cell.str (sanitize_text cell))))
  | [], df, hrect, _, _, _, _ =>
    ⟨hrect, by simp [analyzeCols], rfl, fun c hc hn => rfl, fun c hc => absurd hc (by simp)⟩
  | col :: rest, df, hrect, H1, H2, H3, hnd => by
    have hcolrest : col ∉ rest := (List.nodup_cons.mp hnd).1
    have hnd' : rest.Nodup := (List.nodup_cons.mp hnd).2
    have H2' : ∀ c ∈ rest, ∀ c' ∈ rest, ∀ d ∈ derivedNames c', c ≠ d :=
      fun c hc c' hc' d hd =>
        H2 c (List.mem_cons_of_mem _ hc) c' (List.mem_cons_of_mem _ hc') d hd
    have H3' : ∀ c ∈ rest, ∀ c' ∈ rest, c ≠ c' →
        ∀ d ∈ derivedNames c, ∀ d' ∈ derivedNames c', d ≠ d' :=
      fun c hc c' hc' hne d hd d' hd' =>
        H3 c (List.mem_cons_of_mem _ hc) c' (List.mem_cons_of_mem _ hc') hne d hd d' hd'
    by_cases hcol : col ∈ df.header
    · have hfresh : ∀ d ∈ derivedNames col, d ∉ df.header :=
        fun d hd => H1 col (List.mem_cons_self _ _) d hd
      obtain ⟨ph, pl, pr, pframe, psan⟩ := analyzeCol_present (f := f) hrect hcol hfresh
      have H1' : ∀ c ∈ rest, ∀ d ∈ derivedNames c, d ∉ (analyzeCol f df col).header := by
        intro c hc d hd
        rw [ph]
        simp only [List.mem_append]
        rintro (hm | hm)
        · exact H1 c (List.mem_cons_of_mem _ hc) d hd hm
        · have hne : c ≠ col := fun e => hcolrest (e ▸ hc)
          exact H3 c (List.mem_cons_of_mem _ hc) col (List.mem_cons_self _ _) hne
            d hd d hm rfl
      obtain ⟨qr, qh, ql, qframe, qsan⟩ :=
        analyzeCols_props f rest (analyzeCol f df col) pr H1' H2' H3' hnd'
      have hfilter : rest.filter (fun c => (idxOf? c (analyzeCol f df col).header).isSome) =
          rest.filter (fun c => (idxOf? c df.header).isSome) := by
        apply List.filter_congr
        intro c hc
        have hcd : c ∉ derivedNames col := fun hm =>
          H2 c (List.mem_cons_of_mem _ hc) col (List.mem_cons_self _ _) c hm rfl
        rw [ph]
        by_cases hmc : c ∈ df.header
        · rw [idxOf?_append_left _ hmc]
        · rw [idxOf?_append_right _ hmc, idxOf?_eq_none_iff.mpr hcd,
            idxOf?_eq_none_iff.mpr hmc]
          rfl
      refine ⟨?_, ?_, ?_, ?_, ?_⟩
      · show Rect (analyzeCols f rest (analyzeCol f df col))
        exact qr
      · show (analyzeCols f rest (analyzeCol f df col)).header = _
        rw [qh, hfilter, ph,
          List.filter_cons_of_pos (by simp [idxOf?_isSome_iff, hcol])]
        simp [List.append_assoc]
      · show (analyzeCols f rest (analyzeCol f df col)).rows.length = _
        rw [ql, pl]
      · intro c hc hn
        have hnc : c ∉ rest := fun hm => hn (List.mem_cons_of_mem _ hm)
        have hne : c ≠ col := fun e => hn (e ▸ List.mem_cons_self col rest)
        show getCol (analyzeCols f rest (analyzeCol f df col)) c = getCol df c
        rw [qframe c (by rw [ph]; exact List.mem_append.mpr (Or.inl hc)) hnc,
          pframe c hc hne]
      · intro c hc hcdf
        show getCol (analyzeCols f rest (analyzeCol f df col)) c = _
        rcases List.mem_cons.mp hc with rfl | hcr
        · rw [qframe c (by rw [ph]; exact List.mem_append.mpr (Or.inl hcdf)) hcolrest,
            psan]
        · have hne : c ≠ col := fun e => hcolrest (e ▸ hcr)
          have hColD : getColD (analyzeCol f df col) c = getColD df c := by
            unfold getColD
            rw [pframe c hcdf hne]
          rw [qsan c hcr (by rw [ph]; exact List.mem_append.mpr (Or.inl hcdf)), hColD]
    · have heq : analyzeCol f df col = df := analyzeCol_absent hcol
      have H1'' : ∀ c ∈ rest, ∀ d ∈ derivedNames c, d ∉ df.header :=
        fun c hc d hd => H1 c (List.mem_cons_of_mem _ hc) d hd
      obtain ⟨qr, qh, ql, qframe, qsan⟩ := analyzeCols_props f rest df hrect H1'' H2' H3' hnd'
      refine ⟨?_, ?_, ?_, ?_, ?_⟩
      · show Rect (analyzeCols f rest (analyzeCol f df col))
        rw [heq]
        exact qr
      · show (analyzeCols f rest (analyzeCol f df col)).header = _
        rw [heq, qh,
          List.filter_cons_of_neg (by simp [idxOf?_isSome_iff, hcol])]
      · show (analyzeCols f rest (analyzeCol f df col)).rows.length = _
        rw [heq, ql]
      · intro c hc hn
        have hnc : c ∉ rest := fun hm => hn (List.mem_cons_of_mem _ hm)
        show getCol (analyzeCols f rest (analyzeCol f df col)) c = getCol df c
        rw [heq, qframe c hc hnc]
      · intro c hc hcdf
        show getCol (analyzeCols f rest (analyzeCol f df col)) c = _
        rcases List.mem_cons.mp hc with rfl | hcr
        · exact absurd hcdf hcol
        · rw [heq, qsan c hcr hcdf]

/-- Concrete facts about the five configured column names, used to
instantiate `analyzeCols_props`. -/
theorem sentiment_columns_facts :
    (∀ c ∈ sentiment_columns, ∀ c' ∈ sentiment_columns,
      ∀ d ∈ derivedNames c', c ≠ d) ∧
    (∀ c ∈ sentiment_columns, ∀ c' ∈ sentiment_columns, c ≠ c' →
      ∀ d ∈ derivedNames c, ∀ d' ∈ derivedNames c', d ≠ d') ∧
    sentiment_columns.Nodup := by
  refine ⟨by decide, ?_, by decide⟩
  decide

/-! Claim C1: analysis preserves rows and adds exactly the derived columns. -/

/-- C1: `analyze_retrodata` keeps every row in its original position (same
row count; every non-configured column is unchanged cell for cell, and each
configured column present holds, row for row in the original order, the
sanitized form of its original cells), and for each configured column
present in the input it appends exactly the three derived columns
`C_Sentiment_Score`, `C_Sentiment_Category`, `C_Color` (in configuration
order); a configured column absent from the input is silently skipped: it
contributes no derived columns and causes no error. -/
theorem analyze_retrodata_shape (prim : String → Option ℚ) (df : Table)
    (hrect : Rect df)
    (hfresh : ∀ c ∈ sentiment_columns, ∀ d ∈ derivedNames c, d ∉ df.header) :
    (analyze_retrodata prim df).rows.length = df.rows.length ∧
    (analyze_retrodata prim df).header =
      df.header ++
        (sentiment_columns.filter
          (fun c => (idxOf? c df.header).isSome)).flatMap derivedNames ∧
    (∀ c ∈ df.header, c ∉ sentiment_columns →
      getCol (analyze_retrodata prim df) c = getCol df c) ∧
    (∀ c ∈ sentiment_columns, c ∈ df.header →
      getCol (analyze_retrodata prim df) c =
        some ((getColD df c).map (fun cell => Cell.str (sanitize_text cell)))) := by
  obtain ⟨H2, H3, hnd⟩ := sentiment_columns_facts
  obtain ⟨_, qh, ql, qframe, qsan⟩ :=
    analyzeCols_props (analyze_text prim) sentiment_columns df hrect hfresh H2 H3 hnd
  exact ⟨ql, qh, qframe, qsan⟩

/-- A concrete two-row table with one configured column present. -/
def tblC1 : Table :=
  Table.mk ["issue_key", "What Went Well?"]
    [[Cell.str "K-1", Cell.str "good!  day"], [Cell.str "K-2", Cell.num 5]]

/-- Witness for C1 at a concrete table. -/
theorem analyze_retrodata_shape_app :
    (analyze_retrodata prim0 tblC1).rows.length = tblC1.rows.length ∧
    (analyze_retrodata prim0 tblC1).header =
      tblC1.header ++
        (sentiment_columns.filter
          (fun c => (idxOf? c tblC1.header).isSome)).flatMap derivedNames ∧
    (∀ c ∈ tblC1.header, c ∉ sentiment_columns →
      getCol (analyze_retrodata prim0 tblC1) c = getCol tblC1 c) ∧
    (∀ c ∈ sentiment_columns, c ∈ tblC1.header →
      getCol (analyze_retrodata prim0 tblC1) c =
        some ((getColD tblC1 c).map (fun cell => Cell.str (sanitize_text cell)))) :=
  analyze_retrodata_shape prim0 tblC1 (by decide) (by decide)

/-! Claim C9: the analysis call and the caller's table. -/

/-- In `main` (src/main.py line 96) the DataFrame object is passed to
`analyze_retrodata`, which assigns columns on that very object
(`df[col] = ...` mutates it in place); the caller's binding therefore holds
the function's result after the call. Explicit state passing models the
caller's table after the call. -/
def caller_df_after_analyze (prim : String → Option ℚ) (df : Table) : Table :=
  analyze_retrodata prim df

/-- C9 (counterexample): `analyze_retrodata` does mutate the table object
passed in: for a one-row table whose configured column holds the raw text
`"x  y"`, the caller's table after the call is not the original table — the
raw cell has been overwritten by its sanitized form and three derived
columns have been appended. -/
theorem analyze_mutates_caller :
    caller_df_after_analyze prim0 (Table.mk ["What Went Well?"] [[Cell.str "x  y"]]) ≠
      Table.mk ["What Went Well?"] [[Cell.str "x  y"]] := by
  decide

/-- C9 (amended): each analysis call mutates the caller's table in place —
after the call the caller's table is exactly the augmented table that
`analyze_retrodata` returns — but the mutation is confined to the configured
text columns and the appended derived columns: the row count and the cells
of every non-configured column are unchanged. -/
theorem analyze_caller_state (prim : String → Option ℚ) (df : Table)
    (hrect : Rect df)
    (hfresh : ∀ c ∈ sentiment_columns, ∀ d ∈ derivedNames c, d ∉ df.header) :
    caller_df_after_analyze prim df = analyze_retrodata prim df ∧
    (caller_df_after_analyze prim df).rows.length = df.rows.length ∧
    (∀ c ∈ df.header, c ∉ sentiment_columns →
      getCol (caller_df_after_analyze prim df) c = getCol df c) := by
  obtain ⟨H2, H3, hnd⟩ := sentiment_columns_facts
  obtain ⟨_, qh, ql, qframe, qsan⟩ :=
    analyzeCols_props (analyze_text prim) sentiment_columns df hrect hfresh H2 H3 hnd
  exact ⟨rfl, ql, qframe⟩

/-- Witness for the amended C9 at a concrete table. -/
theorem analyze_caller_state_app :
    caller_df_after_analyze prim0 (Table.mk ["team_id", "Reason for Churn"]
        [[Cell.num 7, Cell.str "price++"]]) =
      analyze_retrodata prim0 (Table.mk ["team_id", "Reason for Churn"]
        [[Cell.num 7, Cell.str "price++"]]) ∧
    (caller_df_after_analyze prim0 (Table.mk ["team_id", "Reason for Churn"]
        [[Cell.num 7, Cell.str "price++"]])).rows.length =
      (Table.mk ["team_id", "Reason for Churn"]
        [[Cell.num 7, Cell.str "price++"]]).rows.length ∧
    (∀ c ∈ (Table.mk ["team_id", "Reason for Churn"]
        [[Cell.num 7, Cell.str "price++"]]).header, c ∉ sentiment_columns →
      getCol (caller_df_after_analyze prim0 (Table.mk ["team_id", "Reason for Churn"]
          [[Cell.num 7, Cell.str "price++"]])) c =
        getCol (Table.mk ["team_id", "Reason for Churn"]
          [[Cell.num 7, Cell.str "price++"]]) c) :=
  analyze_caller_state prim0
    (Table.mk ["team_id", "Reason for Churn"] [[Cell.num 7, Cell.str "price++"]])
    (by decide) (by decide)

/-! Section ResultFilterSorter (`main`, src/main.py lines 117-129). -/

/-- Column access `df[c]` where a missing column raises `KeyError`, modelled as `Except`. -/
def getColE (t : Table) (c : String) : Except String (List Cell) :=
  match getCol t c with
  | some cells => Except.ok cells
  | none => Except.error ("KeyError: " ++ c)

/-- Series membership `df[c].isin(categories)`: elementwise membership of the cell's string
value in the selected categories (numeric and missing cells never match). -/
def isinMask (t : Table) (c : String) (cats : List String) :
    Except String (List Bool) :=
  (getColE t c).map (fun cells => cells.map (fun cell =>
    match cell with
    | Cell.str s => decide (s ∈ cats)
    | _ => false))

/-- Boolean OR of two masks (pandas `|` on boolean Series). -/
def orMask (m1 m2 : List Bool) : List Bool := m1.zipWith (fun a b => a || b) m2

/-- Boolean-mask row selection `df[mask]`: keep the rows whose mask bit is
true, in order. -/
def maskRows (t : Table) (mask : List Bool) : Table :=
  Table.mk t.header (((t.rows.zip mask).filter (fun rb => rb.2)).map (fun rb => rb.1))

/-- The filtering block of `main` (src/main.py lines 117-126): when the
multiselect is non-empty, keep the rows whose value in ANY of the five
hardcoded `*_Sentiment_Category` columns lies in the selection — raising
`KeyError` as soon as one of those five columns is absent; when the
selection is empty, the table passes through unchanged. -/
def filter_step (df : Table) (sentiment_filter : List String) : Except String Table :=
  if sentiment_filter.isEmpty then Except.ok df
  else do
    let m1 ← isinMask df "What Did Not Go Well?_Sentiment_Category" sentiment_filter
    let m2 ← isinMask df "What Went Well?_Sentiment_Category" sentiment_filter
    let m3 ← isinMask df "Reason for Churn_Sentiment_Category" sentiment_filter
    let m4 ← isinMask df "Improvement opportunity_Sentiment_Category" sentiment_filter
    let m5 ← isinMask df "Reason for reported success rate_Sentiment_Category"
      sentiment_filter
    Except.ok (maskRows df (orMask (orMask (orMask (orMask m1 m2) m3) m4) m5))

/-- Numeric value of a cell, for sorting by a score column. -/
def cellNum : Cell → ℚ
  | Cell.num q => q
  | _ => 0

/-- Model of `filtered_df.sort_values(by=sort_by, ascending=False)` (src/main.py
line 129): `KeyError` when the requested column is absent; otherwise the
rows ordered by descending value of that column. pandas' default
`kind='quicksort'` leaves the relative order of equal keys unspecified;
the model fixes one admissible order (a stable merge sort), and no theorem
below depends on the order of ties. -/
def sort_step (df : Table) (sort_by : String) : Except String Table :=
  match idxOf? sort_by df.header with
  | none => Except.error ("KeyError: " ++ sort_by)
  | some i => Except.ok (Table.mk df.header
      (df.rows.mergeSort (fun r s => decide (cellNum (getCell s i) ≤ cellNum (getCell r i)))))

/-! Claim C2: the filter block on a table missing configured columns. -/

/-- C2 (evaluation at the failing input): on a table where only
`What Went Well?` was configured and analyzed (its category column holds
`"neutral"`), a non-empty selection makes the filter block raise
`KeyError` on the first hardcoded column instead of keeping the matching
row by OR over the category columns actually present. -/
theorem filter_step_keyerror :
    filter_step
      (analyze_retrodata prim0 (Table.mk ["What Went Well?"] [[Cell.str "ok"]]))
      ["neutral"] =
    Except.error "KeyError: What Did Not Go Well?_Sentiment_Category" := by
  rfl

/-! Claim C8: invalid sort column is rejected. -/

/-- C8: sorting by a column that does not exist in the augmented table fails
with an error naming that column (surfaced by the top-level handler of
src/main.py lines 177-178 as a rejected request); no other column is
silently chosen. -/
theorem sort_step_invalid_column (df : Table) (c : String) (h : c ∉ df.header) :
    sort_step df c = Except.error ("KeyError: " ++ c) := by
  unfold sort_step
  rw [idxOf?_eq_none_iff.mpr h]

/-- Witness for C8: the spec's scenario, `"Nonexistent_Sentiment_Score"` on
an analyzed table. -/
theorem sort_step_invalid_column_app :
    sort_step (analyze_retrodata prim0 (Table.mk ["What Went Well?"] [[Cell.str "ok"]]))
      "Nonexistent_Sentiment_Score" =
    Except.error ("KeyError: " ++ "Nonexistent_Sentiment_Score") :=
  sort_step_invalid_column _ _ (by decide)

end Retro
